import Mathlib

/-!
Verification of the promtior-ai-challenge ingestion and agent pipeline.

Shallow embedding of `app/ingester.py`, `app/nodes.py`, `app/agent.py`
and `app/config.py`.  External collaborators (the HTTP client, the
BeautifulSoup DOM, the FAISS index, the OpenAI models, the filesystem)
are modelled as explicit function parameters (oracles); everything the
repository itself computes is translated directly from the Python
source.  Python `str` is modelled as Lean `String` (operated on through
`String.data : List Char`); ASCII case folding models `str.lower()`,
which is exact on the URL and phrase alphabets the code uses.
-/

namespace Promtior

/-- `listStartsWith pat l`: `pat` is a prefix of `l`. -/
def listStartsWith : List Char → List Char → Bool
  | [], _ => true
  | _ :: _, [] => false
  | p :: ps, c :: cs => c == p && listStartsWith ps cs

/-- `containsSeg pat l`: `pat` occurs contiguously somewhere in `l`. -/
def containsSeg (pat : List Char) : List Char → Bool
  | [] => listStartsWith pat []
  | c :: cs => listStartsWith pat (c :: cs) || containsSeg pat cs

/-- Python `p in s` (substring containment). -/
def pyIn (p s : String) : Bool :=
  containsSeg p.data s.data

/-- Python `s.endswith(p)`. -/
def pyEndsWith (s p : String) : Bool :=
  listStartsWith p.data.reverse s.data.reverse

/-- Python `s.lower()` (ASCII case folding). -/
def pyLower (s : String) : String :=
  ⟨s.data.map Char.toLower⟩

/-- Python `s.split(sep)[0]` for a one-character separator: the prefix
of `s` before the first occurrence of `c` (all of `s` if absent). -/
def beforeChar (c : Char) (s : String) : String :=
  ⟨s.data.takeWhile (· ≠ c)⟩

/-- Python `not s.strip()`: `s` is empty or all-whitespace. -/
def pyBlank (s : String) : Bool :=
  s.data.all Char.isWhitespace

/-- `_STATIC_EXTENSIONS` from `app/ingester.py`. -/
def STATIC_EXTENSIONS : List String :=
  [".jpg", ".jpeg", ".png", ".gif", ".svg", ".webp", ".ico",
   ".mp4", ".mp3", ".wav", ".avi",
   ".pdf", ".zip", ".gz", ".tar",
   ".css", ".js", ".woff", ".woff2", ".ttf", ".eot"]

/-- `Config.SKIP_URL_PATTERNS` from `app/config.py`. -/
def SKIP_URL_PATTERNS : List String :=
  ["politica-de-privacidad", "privacy-policy", "terms-of-service",
   "contact-us", "contacto", "errorenelpago", "graciasportucompra",
   "webinar-registration", "prelanzamiento", "download-white-paper",
   "meet-promtior", "ebook-organizaciones", "thank-you", "404"]

/-- `_MIN_TEXT_LENGTH` from `app/ingester.py`. -/
def MIN_TEXT_LENGTH : Nat := 200

/-- `_EMBED_BATCH_SIZE` from `app/ingester.py`. -/
def EMBED_BATCH_SIZE : Nat := 50

/-- `_is_static_asset(url)` from `app/ingester.py`:
`path = url.split("?")[0].split("#")[0].lower()` then
`any(path.endswith(ext) for ext in _STATIC_EXTENSIONS)`. -/
def isStaticAsset (url : String) : Bool :=
  let path := pyLower (beforeChar '#' (beforeChar '?' url))
  STATIC_EXTENSIONS.any (fun ext => pyEndsWith path ext)

/-- `_should_skip(url)` from `app/ingester.py`. -/
def shouldSkip (url : String) : Bool :=
  if isStaticAsset url then true
  else SKIP_URL_PATTERNS.any (fun p => pyIn p url)

example : isStaticAsset "https://www.promtior.ai/logo.PNG?v=2#frag" = true := by rfl
example : shouldSkip "https://www.promtior.ai/page?ref=404" = true := by rfl
example : shouldSkip "https://www.promtior.ai/blog/post" = false := by rfl

/-! ### `_parse_page` text cleaning (`app/ingester.py` lines 47-76)

The BeautifulSoup DOM (tag decomposition, `find`, `get_text`) is an
external library; it is abstracted into the `Soup` record below, whose
fields hold the `get_text("\n", strip=True)` of the `<main>`,
`<article>` and `<body>` regions after the decompose passes.  Every
regex substitution the repository applies to the extracted text is
translated exactly (leftmost, greedy, non-overlapping, as `re.sub`
scans). -/

/-!
The left-to-right `re.sub` scans below are written with an explicit
fuel argument (structurally recursive, so the kernel can evaluate them
on concrete inputs); each step consumes at least one input character,
so fuel equal to the input length always suffices, and the wrappers
supply exactly that.
-/

/-- Scan of `re.sub(r"\n{3,}", "\n\n", text)`: each maximal run of 3
or more newlines is replaced by exactly two. -/
def cnrGo : Nat → List Char → List Char
  | _, [] => []
  | 0, l => l
  | fuel + 1, '\n' :: '\n' :: '\n' :: rest =>
      '\n' :: '\n' :: cnrGo fuel (rest.dropWhile (· == '\n'))
  | fuel + 1, c :: cs => c :: cnrGo fuel cs

/-- `re.sub(r"\n{3,}", "\n\n", text)`. -/
def collapseNewlineRuns (l : List Char) : List Char :=
  cnrGo l.length l

/-- The zero-width character class of
`re.sub(r"[zero-width U+200B U+200C U+200D U+FEFF]", "", text)`. -/
def isZeroWidth (c : Char) : Bool :=
  c == '\u200B' || c == '\u200C' || c == '\u200D' || c == '\uFEFF'

/-- `re.sub(r"[zero-width U+200B U+200C U+200D U+FEFF]", "", text)`: character-class
deletion is a filter. -/
def stripZeroWidth (l : List Char) : List Char :=
  l.filter (fun c => !isZeroWidth c)

/-- Case-insensitive prefix match: does the literal pattern match at
the head of the input (as `re.match` with `re.IGNORECASE` would)? -/
def matchesCI : List Char → List Char → Bool
  | [], _ => true
  | _ :: _, [] => false
  | p :: ps, c :: cs => (c.toLower == p.toLower) && matchesCI ps cs

/-- Scan of `re.sub(pat, "", text, flags=re.IGNORECASE)` for a literal
pattern `p :: ps`: delete the leftmost non-overlapping
case-insensitive occurrences in one left-to-right pass. -/
def remLitGo (p : Char) (ps : List Char) : Nat → List Char → List Char
  | _, [] => []
  | 0, l => l
  | fuel + 1, c :: cs =>
      if matchesCI (p :: ps) (c :: cs) then remLitGo p ps fuel (cs.drop ps.length)
      else c :: remLitGo p ps fuel cs

/-- `re.sub(pat, "", text, flags=re.IGNORECASE)` for a literal
pattern. -/
def removeLitCI (p : Char) (ps : List Char) (l : List Char) : List Char :=
  remLitGo p ps l.length l

/-- One `re.sub(phrase, "", text, flags=re.IGNORECASE)` pass for a
literal phrase given as a string. -/
def removePhraseCI (pat : String) (l : List Char) : List Char :=
  match pat.data with
  | [] => l
  | p :: ps => removeLitCI p ps l

/-- Python's `\w` (word character) class.  Exact on ASCII
(alphanumerics and underscore); beyond ASCII, Python's Unicode word
class is approximated by "non-whitespace above U+007F", which agrees on
the accented letters this corpus contains. -/
def isWordChar (c : Char) : Bool :=
  c.isAlphanum || c == '_' || (127 < c.toNat && !c.isWhitespace)

/-- Scan of a `re.sub` pass for a literal prefix `lit` followed by one
or more characters satisfying `cls` (greedy), i.e. the patterns
`Ancla \d+` and `suscri\w+`.  A position matches when the literal
matches case-insensitively there and at least one `cls` character
follows; the match consumes the maximal `cls` run. -/
def remLitClsGo (lit : List Char) (cls : Char → Bool) : Nat → List Char → List Char
  | _, [] => []
  | 0, l => l
  | fuel + 1, c :: cs =>
      if matchesCI lit (c :: cs) then
        match ((c :: cs).drop lit.length).takeWhile cls with
        | [] => c :: remLitClsGo lit cls fuel cs
        | _ :: _ => remLitClsGo lit cls fuel (((c :: cs).drop lit.length).dropWhile cls)
      else c :: remLitClsGo lit cls fuel cs

/-- `re.sub(r"Ancla \d+", "", text, flags=re.IGNORECASE)`. -/
def removeAncla (l : List Char) : List Char :=
  remLitClsGo ("Ancla ").data Char.isDigit l.length l

/-- `re.sub(r"suscri\w+", "", text, flags=re.IGNORECASE)`. -/
def removeSuscri (l : List Char) : List Char :=
  remLitClsGo ("suscri").data isWordChar l.length l

/-- The `noise` substitution sequence of `_parse_page`, applied in
source order. -/
def removeNoise (l : List Char) : List Char :=
  removeSuscri (removePhraseCI "cookie"
    (removeAncla (removePhraseCI "Privacy Policy"
      (removePhraseCI "bottom of page" (removePhraseCI "top of page" l)))))

/-- The suffix of `l` strictly after its last newline, or `none` when
`l` has no newline. -/
def afterLastNewline : List Char → Option (List Char)
  | [] => none
  | c :: cs =>
      match afterLastNewline cs with
      | some s => some s
      | none => if c == '\n' then some cs else none

/-- Scan of `re.sub(r"\n\s*\n", "\n\n", text)`: at each scan position
starting with a newline, the greedy match consumes the following
whitespace up to and including its last newline; the whole match is
replaced by two newlines and the scan resumes after it. -/
def cwrGo : Nat → List Char → List Char
  | _, [] => []
  | 0, l => l
  | fuel + 1, c :: cs =>
      if c == '\n' then
        match afterLastNewline (cs.takeWhile Char.isWhitespace) with
        | some suffix =>
            '\n' :: '\n' :: cwrGo fuel (suffix ++ cs.dropWhile Char.isWhitespace)
        | none => c :: cwrGo fuel cs
      else c :: cwrGo fuel cs

/-- `re.sub(r"\n\s*\n", "\n\n", text)`. -/
def collapseWsRuns (l : List Char) : List Char :=
  cwrGo l.length l

/-- Python `text.strip()` on character lists. -/
def pyStripChars (l : List Char) : List Char :=
  ((l.dropWhile Char.isWhitespace).reverse.dropWhile Char.isWhitespace).reverse

/-- The full cleaning chain `_parse_page` applies to the extracted
text (lines 67-76 of `app/ingester.py`). -/
def cleanPageText (t : String) : String :=
  ⟨pyStripChars (collapseWsRuns (removeNoise (stripZeroWidth (collapseNewlineRuns t.data))))⟩

/-- Abstraction of the BeautifulSoup document after the decompose
passes: the extracted text of `<main>`, `<article>` and `<body>`
(`none` when the element is absent). -/
structure Soup where
  mainText : Option String
  articleText : Option String
  bodyText : Option String

/-- `_parse_page(soup)` from `app/ingester.py`: prefer `<main>`, then
`<article>`, then `<body>`; empty string when none exists; otherwise
the cleaned extracted text. -/
def parsePage (soup : Soup) : String :=
  match soup.mainText <|> soup.articleText <|> soup.bodyText with
  | none => ""
  | some t => cleanPageText t

example : parsePage ⟨none, none, none⟩ = "" := by rfl
example : parsePage ⟨none, none, some "ccookieookie"⟩ = "cookie" := by rfl
example : cleanPageText "a\n\n\ncookie\nb" = "a\n\nb" := by rfl
example : cleanPageText "x\n\ncookie\n\ny" = "x\n\ny" := by rfl
example : cleanPageText "  hi ANCLA 23 there​  " = "hi  there" := by rfl

/-! ### Documents and the sitemap loader (`app/ingester.py` lines 96-167) -/

/-- The metadata dict the loaders attach to a `langchain` `Document`
(`source`, `source_type`, `title`); `metadata.get(key, "unknown")`
becomes `Option.getD`. -/
structure Metadata where
  source : Option String
  source_type : Option String
  title : Option String
deriving DecidableEq

/-- A `langchain_core.documents.Document`: page content plus
metadata. -/
structure Document where
  page_content : String
  metadata : Metadata
deriving DecidableEq

/-- Outcome of `requests.get(url)` followed by `raise_for_status()`:
either a `RequestException` or a response with a `Content-Type` header
and a body text. -/
inductive HttpResult where
  | failure
  | success (contentType : String) (body : String)

/-- `_fetch_page(url)` from `app/ingester.py`: `""` on request failure,
`""` when `"text/html" not in content_type`, otherwise the parsed and
cleaned body.  `http` is the network oracle and `soupOf` the
BeautifulSoup construction of the body. -/
def fetchPage (http : String → HttpResult) (soupOf : String → Soup) (url : String) : String :=
  match http url with
  | .failure => ""
  | .success contentType body =>
      if pyIn "text/html" contentType then parsePage (soupOf body) else ""

/-- `url.split("/")[-1] or "home"` from the sitemap loader. -/
def urlTitle (url : String) : String :=
  let last := (url.splitOn "/").getLastD ""
  if last = "" then "home" else last

/-- Result of `_load_sitemap`: the cleaned document list, plus the
trace of URLs for which `_fetch_page` was invoked (in order). -/
structure SitemapResult where
  docs : List Document
  fetched : List String
deriving DecidableEq

/-- `_load_sitemap` from `app/ingester.py`, applied to the `<loc>`
URLs already extracted from the sitemap XML: skip-filtered URLs are
never fetched; fetched pages shorter than `_MIN_TEXT_LENGTH` are
dropped; the rest become `Document`s with `source`, `source_type` and
`title` metadata, in sitemap order. -/
def loadSitemap (http : String → HttpResult) (soupOf : String → Soup)
    (urls : List String) (source_type : String) : SitemapResult :=
  match urls with
  | [] => ⟨[], []⟩
  | url :: rest =>
      if shouldSkip url then loadSitemap http soupOf rest source_type
      else
        let text := fetchPage http soupOf url
        let tail := loadSitemap http soupOf rest source_type
        if text.length < MIN_TEXT_LENGTH then
          ⟨tail.docs, url :: tail.fetched⟩
        else
          ⟨⟨text, ⟨some url, some source_type, some (urlTitle url)⟩⟩ :: tail.docs,
           url :: tail.fetched⟩

/-! ### PDF loader and retriever factory -/

/-- A raised Python exception relevant to this code base. -/
inductive PyError where
  | fileNotFound (msg : String)
deriving DecidableEq

/-- `Config.INDEX_PATH`. -/
def INDEX_PATH : String := "faiss_index"

/-- `Config.RETRIEVER_K`. -/
def RETRIEVER_K : Nat := 5

/-- `Config.PDF_PATH`. -/
def PDF_PATH : String := "data/AI Engineer.pdf"

/-- `_load_pdf(file_path)` from `app/ingester.py`: raises
`FileNotFoundError` when `os.path.exists` is false, otherwise loads
the pages through `PyPDFLoader` (`pdfLoad`, external) and overwrites
`source`, `source_type`, `title` in each page's metadata. -/
def loadPdf (osPathExists : String → Bool) (pdfLoad : String → List Document)
    (file_path : String) : Except PyError (List Document) :=
  if osPathExists file_path then
    .ok ((pdfLoad file_path).map fun d =>
      ⟨d.page_content, ⟨some file_path, some "presentation", some "AI Engineer Presentation"⟩⟩)
  else
    .error (.fileNotFound ("Source PDF not found: " ++ file_path))

/-- `get_retriever()` from `app/config.py`: raises `FileNotFoundError`
when the persisted index directory does not exist, otherwise loads the
index (`loadLocal`, external FAISS deserialization) and returns the
retriever. -/
def getRetriever {α : Type} (osPathExists : String → Bool) (loadLocal : String → α) :
    Except PyError α :=
  if osPathExists INDEX_PATH then .ok (loadLocal INDEX_PATH)
  else
    .error (.fileNotFound
      ("FAISS index not found at " ++ "'" ++ INDEX_PATH ++ "'" ++
       ". Run ingester.py first."))

/-! ### Batched embedding and the ingestion orchestrator
(`app/ingester.py` lines 192-253) -/

/-- The `for i in range(batch_size, len(chunks), batch_size)` loop of
`_embed_in_batches`: the successive `chunks[i:i+batch_size]` slices.
The `0 < batch_size` guard mirrors `range`'s requirement of a nonzero
step (the call site passes 50). -/
def embedLoop (chunks : List Document) (batch_size i : Nat) : List (List Document) :=
  if _h : i < chunks.length ∧ 0 < batch_size then
    ((chunks.drop i).take batch_size) :: embedLoop chunks batch_size (i + batch_size)
  else []
termination_by chunks.length - i
decreasing_by
  omega

/-- Trace of `_embed_in_batches(chunks, batch_size)`: the argument of
the initial `FAISS.from_documents` call, the arguments of the
successive `add_documents` calls, the number of `time.sleep(1)` pauses
(one before each `add_documents`), and the final vector-store contents
(initial batch followed by each added batch). -/
structure EmbedTrace where
  initBatch : List Document
  addedBatches : List (List Document)
  sleeps : Nat
  store : List Document
deriving DecidableEq

/-- `_embed_in_batches` from `app/ingester.py`. -/
def embedInBatches (chunks : List Document) (batch_size : Nat) : EmbedTrace :=
  let first := chunks.take batch_size
  let adds := embedLoop chunks batch_size batch_size
  ⟨first, adds, adds.length, first ++ adds.flatten⟩

/-- Outcome of a completed `run_ingestion` call. -/
inductive RunResult where
  | abortedNoDocs
  | saved (indexPath : String) (store : List Document)
deriving DecidableEq

/-- `run_ingestion` from `app/ingester.py`, applied to the results of
the three source loaders (`_load_sitemap` twice, `_load_pdf`; `split`
is the external `RecursiveCharacterTextSplitter.split_documents`).  A
`FileNotFoundError` from `_load_pdf` propagates; with zero documents
the function logs and returns without indexing; otherwise it chunks,
embeds and persists. -/
def runIngestion (pages_docs blog_docs : List Document)
    (pdf : Except PyError (List Document))
    (split : List Document → List Document) : Except PyError RunResult :=
  match pdf with
  | .error e => .error e
  | .ok pdf_docs =>
      let all_docs := pages_docs ++ blog_docs ++ pdf_docs
      if all_docs.isEmpty then .ok .abortedNoDocs
      else
        .ok (.saved INDEX_PATH (embedInBatches (split all_docs) EMBED_BATCH_SIZE).store)

/-! ### Graph nodes (`app/nodes.py`) -/

/-- The internal `AgentState` TypedDict: question, context, sources,
answer. -/
structure AgentState where
  question : String
  context : String
  sources : String
  answer : String
deriving DecidableEq

/-- The `InputState` TypedDict: what the client sends — only the
question. -/
structure InputState where
  question : String
deriving DecidableEq

/-- The `OutputState` TypedDict: what the client receives — only the
answer. -/
structure OutputState where
  answer : String
deriving DecidableEq

/-- A `langchain` chat message (`SystemMessage` / `HumanMessage`),
as role plus content. -/
structure Message where
  role : String
  content : String
deriving DecidableEq

/-- `SYSTEM_PROMPT` from `app/nodes.py`. -/
def SYSTEM_PROMPT : String :=
  "You are the Promtior Bionic Assistant.\n\n<verified_facts>\n- Company Name: Promtior\n- Founded: May 2023\n- Founders: Emiliano Chinelli and Ignacio Acuña\n- Core Focus: Augmented Automation, AI Solutions (Agents), Big Data\n- Services: GenAI Product Delivery, GenAI Department as a Service, GenAI Adoption Consulting\n- Key Clients: CAF, 5M Travel Group, Guyer & Regules, Paigo, Handy, Vangwe, Forestal Atlántico Sur, Advice Consulting, Infocorp, L\u0027Oréal Latam, SIEE, ST Consultores, RPA Maker, CIEMSA, S1, Incapital\n- Key Stats: 70% productivity boost, 3.5x return per $1 invested, 91% of leading orgs investing in AI\n- Website: https://promtior.ai/\n</verified_facts>\n\n<instructions>\n1. You will receive a <context> block with text retrieved from the Promtior website and the AI Engineer presentation PDF, and a <question> from the user.\n2. FIRST, silently reason about what information is available in the context AND in the verified facts above. Do NOT show your reasoning to the user.\n3. If ANY relevant information exists in either source, YOU MUST answer. Synthesize and summarize - do NOT say \"I don\u0027t have enough information\" when there is relevant data available.\n4. When answering, briefly cite the source: (Source: Website) or (Source: Presentation).\n5. Only say you cannot answer if the question is completely unrelated to Promtior.\n6. Never invent facts. Be concise, professional, and helpful.\n</instructions>"

/-- The fixed fallback answer `generate_node` returns on blank
context (`app/nodes.py` lines 103-109). -/
def FALLBACK_ANSWER : String :=
  "I couldn\u0027t find specific information about that in the Promtior knowledge base. Please try rephrasing your question or ask about Promtior\u0027s services, founders, or case studies."

/-- The source tag `f"[{source_type}: {source_url}]"` built in
`retrieve_node` from a document's metadata. -/
def sourceLabel (d : Document) : String :=
  "[" ++ d.metadata.source_type.getD "unknown" ++ ": " ++
    d.metadata.source.getD "unknown" ++ "]"

/-- The partial state `retrieve_node` returns: `context` and
`sources`. -/
structure RetrieveResult where
  context : String
  sources : String
deriving DecidableEq

/-- One iteration of the `for doc in docs` loop of `retrieve_node`:
append the tagged chunk, and append the label to `source_labels`
unless already present. -/
def retrieveStep (acc : List String × List String) (doc : Document) :
    List String × List String :=
  let label := sourceLabel doc
  (acc.1 ++ [label ++ "\n" ++ doc.page_content],
   if acc.2.contains label then acc.2 else acc.2 ++ [label])

/-- The `for doc in docs` loop of `retrieve_node`: accumulates
`tagged_chunks` and the first-occurrence-deduplicated
`source_labels`. -/
def retrieveFold (docs : List Document) : List String × List String :=
  docs.foldl retrieveStep ([], [])

/-- `retrieve_node` from `app/nodes.py`; `retriever` is the external
FAISS retriever (`retriever.invoke(question)`). -/
def retrieveNode (retriever : String → List Document) (state : AgentState) : RetrieveResult :=
  let docs := retriever state.question
  let acc := retrieveFold docs
  ⟨String.intercalate "\n\n---\n\n" acc.1, String.intercalate ", " acc.2⟩

/-- The partial state `generate_node` returns, together with the
number of `llm.invoke` calls the execution performed. -/
structure GenResult where
  answer : String
  llmCalls : Nat
deriving DecidableEq

/-- The `messages` list `generate_node` builds for the model. -/
def genMessages (state : AgentState) : List Message :=
  [⟨"system", SYSTEM_PROMPT⟩,
   ⟨"human",
    "<context>\n" ++ state.context ++ "\n</context>\n\n<question>\n" ++
      state.question ++ "\n</question>"⟩]

/-- `generate_node` from `app/nodes.py`; `llm` is the external chat
model (`llm.invoke(messages).content`).  On blank context
(`not state["context"].strip()`) it returns the fixed fallback without
invoking the model; otherwise it invokes the model once on
`genMessages` and returns its response. -/
def generateNode (llm : List Message → String) (state : AgentState) : GenResult :=
  if pyBlank state.context then ⟨FALLBACK_ANSWER, 0⟩
  else ⟨llm (genMessages state), 1⟩

/-! ### The compiled graph (`app/agent.py`) -/

/-- LangGraph's `END` sentinel. -/
def END_NODE : String := "__end__"

/-- The static shape of a `StateGraph`: named nodes, directed edges,
entry point. -/
structure GraphShape where
  nodes : List String
  edges : List (String × String)
  entry_point : String
deriving DecidableEq

/-- The graph built by `create_agent` in `app/agent.py`:
`retrieve → generate → END`, entry `retrieve`. -/
def create_agent : GraphShape :=
  ⟨["retrieve", "generate"],
   [("retrieve", "generate"), ("generate", END_NODE)],
   "retrieve"⟩

/-- The successors of a node in a graph: targets of its outgoing
edges. -/
def graphSteps (g : GraphShape) (n : String) : List String :=
  (g.edges.filter (fun e => e.1 == n)).map Prod.snd

/-- Execution of the compiled two-node graph on an input: the input
projection builds the initial `AgentState` from `question` alone, the
nodes run in sequence each merging its partial result, and the output
projection keeps `answer` alone. -/
def runAgent (retriever : String → List Document) (llm : List Message → String)
    (inp : InputState) : OutputState :=
  let s0 : AgentState := ⟨inp.question, "", "", ""⟩
  let r := retrieveNode retriever s0
  let s1 : AgentState := ⟨s0.question, r.context, r.sources, s0.answer⟩
  let g := generateNode llm s1
  let s2 : AgentState := ⟨s1.question, s1.context, s1.sources, g.answer⟩
  ⟨s2.answer⟩

/-- Does a character list start with a newline?  Used to reason about
the cleaning chain. -/
def headIsNl : List Char → Bool
  | c :: _ => c == '\n'
  | [] => false

/-- Case-insensitive contiguous occurrence of a literal pattern
(`re.search` with `re.IGNORECASE` for a literal). -/
def containsSegCI (pat : List Char) : List Char → Bool
  | [] => matchesCI pat []
  | c :: cs => matchesCI pat (c :: cs) || containsSegCI pat cs

/-! ## Helper lemmas -/

theorem listStartsWith_iff {pat l : List Char} :
    listStartsWith pat l = true ↔ pat <+: l := by
  induction pat generalizing l with
  | nil => simp [listStartsWith]
  | cons p ps ih =>
    cases l with
    | nil =>
      simp [listStartsWith]
    | cons c cs =>
      simp only [listStartsWith, Bool.and_eq_true, beq_iff_eq]
      rw [ih]
      constructor
      · rintro ⟨rfl, t, rfl⟩
        exact ⟨t, rfl⟩
      · rintro ⟨t, h⟩
        simp only [List.cons_append, List.cons.injEq] at h
        exact ⟨h.1.symm, t, h.2⟩

theorem containsSeg_iff {pat l : List Char} :
    containsSeg pat l = true ↔ pat <:+: l := by
  induction l with
  | nil =>
    simp only [containsSeg, listStartsWith_iff]
    constructor
    · intro h
      exact h.isInfix
    · intro h
      have hnil : pat = [] := List.length_eq_zero.mp (Nat.le_zero.mp h.length_le)
      simp [hnil]
  | cons c cs ih =>
    simp only [containsSeg, Bool.or_eq_true, listStartsWith_iff, ih]
    exact (List.infix_cons_iff).symm

theorem pyIn_iff {p s : String} : pyIn p s = true ↔ p.data <:+: s.data := by
  simp [pyIn, containsSeg_iff]

/-! ## Claim theorems -/

/-- C1 (counterexample): with zero documents loaded from every source,
`run_ingestion` does not raise — it returns normally (with the
ingestion aborted and nothing indexed), refuting the claim that it
fails fatally. -/
theorem C1_counterexample :
    runIngestion [] [] (.ok []) id = .ok .abortedNoDocs := by rfl

/-- C1 (amended): if zero documents were loaded from all sources
combined, `run_ingestion` logs and returns normally without building
or persisting any index (the outcome is `abortedNoDocs`, never
`saved`), rather than raising. -/
theorem C1_amended_no_docs_aborts (pages blog pdfd : List Document)
    (split : List Document → List Document)
    (h : pages ++ blog ++ pdfd = []) :
    runIngestion pages blog (.ok pdfd) split = .ok .abortedNoDocs ∧
    ∀ path store, runIngestion pages blog (.ok pdfd) split ≠ .ok (.saved path store) := by
  have hE : (pages ++ blog ++ pdfd).isEmpty = true := by
    rw [h]; rfl
  constructor
  · simp only [runIngestion, hE, if_true]
  · intro path store
    simp only [runIngestion, hE, if_true]
    intro hcontra
    simp at hcontra

/-- C1 (witness for the amended theorem). -/
theorem C1_amended_witness :
    ([] : List Document) ++ [] ++ [] = [] ∧
    runIngestion [] [] (.ok []) (fun l => l) = .ok .abortedNoDocs :=
  ⟨rfl, (C1_amended_no_docs_aborts [] [] [] (fun l => l) rfl).1⟩

set_option maxRecDepth 16384 in
/-- C2 (counterexample): on blank context `generate_node` returns the
fixed fallback, but that fallback is the string beginning "I
couldn't find specific information ..." — it does not contain the
phrase "I don't have enough information" the claim names. -/
theorem C2_counterexample :
    (generateNode (fun _ => "model output") ⟨"q", "", "", ""⟩).answer = FALLBACK_ANSWER ∧
    pyIn "I don't have enough information" FALLBACK_ANSWER = false := by
  exact ⟨rfl, rfl⟩

/-- C2 (amended): for every state whose retrieved context is empty or
whitespace-only, `generate_node` returns the fixed fallback message
(the one beginning "I couldn't find specific information about that in
the Promtior knowledge base ...") and never invokes the model; for
every state with non-blank context it invokes the model exactly once
on the built messages and returns the model's response. -/
theorem C2_amended_generate_node (llm : List Message → String) (st : AgentState) :
    (pyBlank st.context = true → generateNode llm st = ⟨FALLBACK_ANSWER, 0⟩) ∧
    (pyBlank st.context = false → generateNode llm st = ⟨llm (genMessages st), 1⟩) := by
  unfold generateNode
  constructor <;> intro h <;> simp [h]

/-- C2 (witness): the amended theorem applied at a blank state and at
a non-blank state. -/
theorem C2_amended_witness :
    pyBlank " \n " = true ∧
    generateNode (fun _ => "model output") ⟨"q", " \n ", "", ""⟩ = ⟨FALLBACK_ANSWER, 0⟩ ∧
    pyBlank "some context" = false ∧
    generateNode (fun _ => "model output") ⟨"q", "some context", "", ""⟩ = ⟨"model output", 1⟩ :=
  ⟨rfl,
   (C2_amended_generate_node (fun _ => "model output") ⟨"q", " \n ", "", ""⟩).1 rfl,
   rfl,
   (C2_amended_generate_node (fun _ => "model output") ⟨"q", "some context", "", ""⟩).2 rfl⟩

/-- C5: both missing-local-asset conditions raise: `_load_pdf` raises
`FileNotFoundError` when the PDF path does not exist — before any PDF
parsing, so the result is the same for every `PyPDFLoader` behaviour —
and `get_retriever` raises `FileNotFoundError` when the persisted
index directory does not exist — before any index loading, so the
result is the same for every FAISS deserialization behaviour. -/
theorem C5_missing_assets_raise (fsExists : String → Bool) (path : String) :
    (fsExists path = false →
      ∀ pdfLoad pdfLoad2 : String → List Document,
        loadPdf fsExists pdfLoad path =
          .error (.fileNotFound ("Source PDF not found: " ++ path)) ∧
        loadPdf fsExists pdfLoad path = loadPdf fsExists pdfLoad2 path) ∧
    (fsExists INDEX_PATH = false →
      ∀ loadLocal loadLocal2 : String → List Document,
        getRetriever fsExists loadLocal =
          .error (.fileNotFound
            ("FAISS index not found at " ++ "'" ++ INDEX_PATH ++ "'" ++
             ". Run ingester.py first.")) ∧
        getRetriever fsExists loadLocal = getRetriever fsExists loadLocal2) := by
  constructor
  · intro h pdfLoad pdfLoad2
    constructor <;> simp [loadPdf, h]
  · intro h loadLocal loadLocal2
    constructor <;> simp [getRetriever, h]

/-- C5 (witness): the theorem applied to the always-absent filesystem
at the configured PDF path. -/
theorem C5_witness :
    (fun _ : String => false) PDF_PATH = false ∧
    loadPdf (fun _ => false) (fun _ => []) PDF_PATH =
      .error (.fileNotFound ("Source PDF not found: " ++ PDF_PATH)) ∧
    getRetriever (fun _ => false) (fun _ => ([] : List Document)) =
      .error (.fileNotFound
        ("FAISS index not found at " ++ "'" ++ INDEX_PATH ++ "'" ++
         ". Run ingester.py first.")) :=
  ⟨rfl,
   ((C5_missing_assets_raise (fun _ => false) PDF_PATH).1 rfl (fun _ => []) (fun _ => [])).1,
   ((C5_missing_assets_raise (fun _ => false) PDF_PATH).2 rfl (fun _ => []) (fun _ => [])).1⟩

/-- C6: the compiled pipeline's input projection exposes only
`question` (an `InputState` is determined by its `question`) and its
output projection exposes only `answer`; the run of the graph maps the
question to exactly the generated answer, with `context` and `sources`
internal; and the graph is the fixed unconditional two-stage sequence
`retrieve → generate → END` — each stage has exactly one successor and
nothing leads back, so there is no branching and no cycle. -/
theorem C6_pipeline_boundary :
    create_agent.nodes = ["retrieve", "generate"] ∧
    create_agent.entry_point = "retrieve" ∧
    create_agent.edges = [("retrieve", "generate"), ("generate", END_NODE)] ∧
    graphSteps create_agent "retrieve" = ["generate"] ∧
    graphSteps create_agent "generate" = [END_NODE] ∧
    graphSteps create_agent END_NODE = [] ∧
    (∀ retriever llm inp,
        runAgent retriever llm inp =
          ⟨(generateNode llm
              ⟨inp.question,
               (retrieveNode retriever ⟨inp.question, "", "", ""⟩).context,
               (retrieveNode retriever ⟨inp.question, "", "", ""⟩).sources, ""⟩).answer⟩) ∧
    (∀ a b : InputState, a.question = b.question → a = b) ∧
    (∀ a b : OutputState, a.answer = b.answer → a = b) := by
  refine ⟨rfl, rfl, rfl, rfl, rfl, rfl, ?_, ?_, ?_⟩
  · intro retriever llm inp
    rfl
  · intro a b h
    cases a; cases b; simpa using h
  · intro a b h
    cases a; cases b; simpa using h

/-- C6 (witness): the run characterization and the projections at
concrete values. -/
theorem C6_witness :
    runAgent (fun _ => []) (fun _ => "ans") ⟨"who?"⟩ =
      ⟨(generateNode (fun _ => "ans")
          ⟨"who?",
           (retrieveNode (fun _ => []) ⟨"who?", "", "", ""⟩).context,
           (retrieveNode (fun _ => []) ⟨"who?", "", "", ""⟩).sources, ""⟩).answer⟩ ∧
    (⟨"q"⟩ : InputState) = ⟨"q"⟩ :=
  ⟨C6_pipeline_boundary.2.2.2.2.2.2.1 (fun _ => []) (fun _ => "ans") ⟨"who?"⟩,
   C6_pipeline_boundary.2.2.2.2.2.2.2.1 ⟨"q"⟩ ⟨"q"⟩ rfl⟩

theorem foldl_retrieveStep_fst (docs : List Document) :
    ∀ acc : List String × List String,
      (docs.foldl retrieveStep acc).1 =
        acc.1 ++ docs.map (fun d => sourceLabel d ++ "\n" ++ d.page_content) := by
  induction docs with
  | nil => intro acc; simp
  | cons d ds ih =>
    intro acc
    simp only [List.foldl_cons, ih, retrieveStep, List.map_cons]
    simp

/-- C7: for every non-empty retrieved document list, the context
produced by `retrieve_node` is exactly the retrieved chunks' text
joined by the fixed separator, in retrieval order, each preceded by
its `[source_type: source]` tag built from that chunk's metadata. -/
theorem C7_retrieve_context (retriever : String → List Document) (st : AgentState)
    (_h : retriever st.question ≠ []) :
    (retrieveNode retriever st).context =
      String.intercalate "\n\n---\n\n"
        ((retriever st.question).map fun d =>
          "[" ++ d.metadata.source_type.getD "unknown" ++ ": " ++
            d.metadata.source.getD "unknown" ++ "]" ++ "\n" ++ d.page_content) := by
  show String.intercalate "\n\n---\n\n" (retrieveFold (retriever st.question)).1 = _
  rw [retrieveFold, foldl_retrieveStep_fst]
  rfl

/-- C7 (witness): the theorem applied to a concrete two-chunk
retrieval. -/
theorem C7_witness :
    (fun _ : String => [Document.mk "chunk one" ⟨some "u1", some "website", some "t1"⟩,
                        Document.mk "chunk two" ⟨none, none, none⟩]) "q" ≠ [] ∧
    (retrieveNode
        (fun _ => [Document.mk "chunk one" ⟨some "u1", some "website", some "t1"⟩,
                   Document.mk "chunk two" ⟨none, none, none⟩])
        ⟨"q", "", "", ""⟩).context =
      "[website: u1]" ++ "\n" ++ "chunk one" ++ "\n\n---\n\n" ++
        "[unknown: unknown]" ++ "\n" ++ "chunk two" := by
  constructor
  · simp
  · have := C7_retrieve_context
      (fun _ => [Document.mk "chunk one" ⟨some "u1", some "website", some "t1"⟩,
                 Document.mk "chunk two" ⟨none, none, none⟩])
      ⟨"q", "", "", ""⟩ (by simp)
    rw [this]
    rfl

theorem embedLoop_flatten (chunks : List Document) (bs : Nat) (hbs : 0 < bs) (i : Nat) :
    (embedLoop chunks bs i).flatten = chunks.drop i := by
  rw [embedLoop]
  split
  · rename_i h
    rw [List.flatten_cons, embedLoop_flatten chunks bs hbs (i + bs)]
    exact List.drop_take_append_drop chunks i bs
  · rename_i h
    have hle : chunks.length ≤ i := by
      rcases Nat.lt_or_ge i chunks.length with h1 | h1
      · exact absurd ⟨h1, hbs⟩ h
      · exact h1
    simp [List.drop_eq_nil_of_le hle]
termination_by chunks.length - i
decreasing_by
  omega

theorem embedLoop_batches (chunks : List Document) (bs : Nat) (hbs : 0 < bs) (i : Nat) :
    ∀ b ∈ embedLoop chunks bs i, b ≠ [] ∧ b.length ≤ bs := by
  rw [embedLoop]
  split
  · rename_i h
    intro b hb
    rcases List.mem_cons.mp hb with rfl | hmem
    · refine ⟨?_, List.length_take_le bs _⟩
      have : (chunks.drop i).length = chunks.length - i := List.length_drop i chunks
      intro hnil
      have : (List.take bs (chunks.drop i)).length = 0 := by rw [hnil]; rfl
      rw [List.length_take] at this
      omega
    · exact embedLoop_batches chunks bs hbs (i + bs) b hmem
  · intro b hb
    exact absurd hb (List.not_mem_nil b)
termination_by chunks.length - i
decreasing_by
  omega

/-- C9: for every non-empty chunk list, `_embed_in_batches` processes
the chunks in consecutive non-empty slices of at most 50 that
partition the list in order (their concatenation is exactly the chunk
list, so every chunk is embedded exactly once): the first slice is the
`FAISS.from_documents` initialization, each later slice is one
`add_documents` call on the same store preceded by one pause, and the
final store holds exactly the chunks. -/
theorem C9_embed_in_batches (chunks : List Document) (h : chunks ≠ []) :
    (embedInBatches chunks EMBED_BATCH_SIZE).initBatch = chunks.take EMBED_BATCH_SIZE ∧
    (embedInBatches chunks EMBED_BATCH_SIZE).initBatch ≠ [] ∧
    (embedInBatches chunks EMBED_BATCH_SIZE).initBatch.length ≤ EMBED_BATCH_SIZE ∧
    (∀ b ∈ (embedInBatches chunks EMBED_BATCH_SIZE).addedBatches,
        b ≠ [] ∧ b.length ≤ EMBED_BATCH_SIZE) ∧
    (embedInBatches chunks EMBED_BATCH_SIZE).initBatch ++
        (embedInBatches chunks EMBED_BATCH_SIZE).addedBatches.flatten = chunks ∧
    (embedInBatches chunks EMBED_BATCH_SIZE).store = chunks ∧
    (embedInBatches chunks EMBED_BATCH_SIZE).sleeps =
      (embedInBatches chunks EMBED_BATCH_SIZE).addedBatches.length := by
  have hbs : 0 < EMBED_BATCH_SIZE := by decide
  have hflat := embedLoop_flatten chunks EMBED_BATCH_SIZE hbs EMBED_BATCH_SIZE
  have hjoin : chunks.take EMBED_BATCH_SIZE ++
      (embedLoop chunks EMBED_BATCH_SIZE EMBED_BATCH_SIZE).flatten = chunks := by
    rw [hflat, List.take_append_drop]
  refine ⟨rfl, ?_, List.length_take_le _ _, ?_, hjoin, hjoin, rfl⟩
  · intro hnil
    rcases chunks with _ | ⟨c, cs⟩
    · exact h rfl
    · simp [embedInBatches, EMBED_BATCH_SIZE] at hnil
  · exact embedLoop_batches chunks EMBED_BATCH_SIZE hbs EMBED_BATCH_SIZE

/-- C9 (witness): the theorem applied to a concrete one-chunk list. -/
theorem C9_witness :
    [Document.mk "c" ⟨none, none, none⟩] ≠ [] ∧
    (embedInBatches [Document.mk "c" ⟨none, none, none⟩] EMBED_BATCH_SIZE).store =
      [Document.mk "c" ⟨none, none, none⟩] :=
  ⟨by simp,
   (C9_embed_in_batches [Document.mk "c" ⟨none, none, none⟩] (by simp)).2.2.2.2.2.1⟩

/-- C10: skip filtering matches each configured pattern as a plain
substring of the entire URL (the iff below), so a URL containing
"404" in its query string, or "contacto" inside a longer path
segment, is skipped; and the static-asset check tests the lowercased
path with the query string and fragment cut off, so it is
case-insensitive and ignores both. -/
theorem C10_skip_and_static :
    (∀ url : String, shouldSkip url = true ↔
        (isStaticAsset url = true ∨ ∃ p ∈ SKIP_URL_PATTERNS, p.data <:+: url.data)) ∧
    shouldSkip "https://promtior.ai/page?sec=404" = true ∧
    shouldSkip "https://promtior.ai/es/contactos-y-mas" = true ∧
    (∀ url : String, isStaticAsset url =
        STATIC_EXTENSIONS.any (fun ext =>
          pyEndsWith (pyLower (beforeChar '#' (beforeChar '?' url))) ext)) ∧
    isStaticAsset "https://x.com/IMG.JpG?width=100#top" = true ∧
    isStaticAsset "https://x.com/assets/font.WOFF2" = true := by
  refine ⟨?_, by rfl, by rfl, fun url => rfl, by rfl, by rfl⟩
  intro url
  unfold shouldSkip
  by_cases hs : isStaticAsset url = true
  · simp [hs]
  · simp only [hs, if_neg, Bool.false_eq_true, if_false, List.any_eq_true]
    constructor
    · rintro ⟨p, hp, hin⟩
      exact Or.inr ⟨p, hp, pyIn_iff.mp hin⟩
    · rintro (hstatic | ⟨p, hp, hinf⟩)
      · exact hstatic.elim
      · exact ⟨p, hp, pyIn_iff.mpr hinf⟩

/-- C10 (witness): the substring iff applied at a URL carrying a skip
pattern inside its query string. -/
theorem C10_witness :
    shouldSkip "https://promtior.ai/deep/page?next=thank-you-step" = true :=
  (C10_skip_and_static.1 "https://promtior.ai/deep/page?next=thank-you-step").mpr
    (Or.inr ⟨"thank-you", by simp [SKIP_URL_PATTERNS],
      ⟨("https://promtior.ai/deep/page?next=").data, ("-step").data, by rfl⟩⟩)

theorem loadSitemap_fetched_skip (http : String → HttpResult) (soupOf : String → Soup)
    (u : String) (rest : List String) (st : String) (hu : shouldSkip u = true) :
    loadSitemap http soupOf (u :: rest) st = loadSitemap http soupOf rest st := by
  rw [loadSitemap]
  simp [hu]

theorem loadSitemap_cons_noskip (http : String → HttpResult) (soupOf : String → Soup)
    (u : String) (rest : List String) (st : String) (hu : shouldSkip u = false) :
    loadSitemap http soupOf (u :: rest) st =
      if (fetchPage http soupOf u).length < MIN_TEXT_LENGTH then
        ⟨(loadSitemap http soupOf rest st).docs,
         u :: (loadSitemap http soupOf rest st).fetched⟩
      else
        ⟨⟨fetchPage http soupOf u, ⟨some u, some st, some (urlTitle u)⟩⟩ ::
            (loadSitemap http soupOf rest st).docs,
         u :: (loadSitemap http soupOf rest st).fetched⟩ := by
  rw [loadSitemap]
  simp [hu]

/-- C3: a URL whose path (before any query string or fragment) ends in
a static-asset extension is never fetched by the sitemap loader: it is
rejected by `_should_skip` before `_fetch_page` can run, so it never
appears in the fetch trace. -/
theorem C3_static_never_fetched (http : String → HttpResult) (soupOf : String → Soup)
    (urls : List String) (source_type url : String) (h : isStaticAsset url = true) :
    url ∉ (loadSitemap http soupOf urls source_type).fetched := by
  have hsu : shouldSkip url = true := by
    unfold shouldSkip
    simp [h]
  induction urls with
  | nil =>
    rw [loadSitemap]
    exact List.not_mem_nil url
  | cons u rest ih =>
    by_cases hu : shouldSkip u = true
    · rw [loadSitemap_fetched_skip http soupOf u rest source_type hu]
      exact ih
    · have hu' : shouldSkip u = false := by
        cases hq : shouldSkip u
        · rfl
        · exact absurd hq hu
      have hne : url ≠ u := fun he => hu (he ▸ hsu)
      rw [loadSitemap_cons_noskip http soupOf u rest source_type hu']
      split <;> · intro hmem
                  rcases List.mem_cons.mp hmem with he | hmem2
                  · exact hne he
                  · exact ih hmem2

/-- C3 (witness): a concrete static-asset URL listed in a concrete
sitemap, never fetched. -/
theorem C3_witness :
    isStaticAsset "https://www.promtior.ai/banner.png" = true ∧
    "https://www.promtior.ai/banner.png" ∉
      (loadSitemap (fun _ => .failure) (fun _ => ⟨none, none, none⟩)
        ["https://www.promtior.ai/banner.png", "https://www.promtior.ai/about"]
        "website").fetched :=
  ⟨rfl,
   C3_static_never_fetched (fun _ => .failure) (fun _ => ⟨none, none, none⟩)
     ["https://www.promtior.ai/banner.png", "https://www.promtior.ai/about"]
     "website" "https://www.promtior.ai/banner.png" rfl⟩

theorem loadSitemap_docs_mem (http : String → HttpResult) (soupOf : String → Soup)
    (st : String) :
    ∀ urls, ∀ d ∈ (loadSitemap http soupOf urls st).docs,
      ∃ u ∈ urls, shouldSkip u = false ∧
        MIN_TEXT_LENGTH ≤ (fetchPage http soupOf u).length ∧
        d = ⟨fetchPage http soupOf u, ⟨some u, some st, some (urlTitle u)⟩⟩ := by
  intro urls
  induction urls with
  | nil =>
    rw [loadSitemap]
    intro d hd
    exact absurd hd (List.not_mem_nil d)
  | cons u rest ih =>
    intro d hd
    by_cases hu : shouldSkip u = true
    · rw [loadSitemap_fetched_skip http soupOf u rest st hu] at hd
      obtain ⟨v, hv, hrest⟩ := ih d hd
      exact ⟨v, List.mem_cons_of_mem u hv, hrest⟩
    · have hu' : shouldSkip u = false := by
        cases hq : shouldSkip u
        · rfl
        · exact absurd hq hu
      rw [loadSitemap_cons_noskip http soupOf u rest st hu'] at hd
      by_cases hlen : (fetchPage http soupOf u).length < MIN_TEXT_LENGTH
      · rw [if_pos hlen] at hd
        obtain ⟨v, hv, hrest⟩ := ih d hd
        exact ⟨v, List.mem_cons_of_mem u hv, hrest⟩
      · rw [if_neg hlen] at hd
        rcases List.mem_cons.mp hd with rfl | hd2
        · exact ⟨u, List.mem_cons_self u rest, hu', Nat.le_of_not_lt hlen, rfl⟩
        · obtain ⟨v, hv, hrest⟩ := ih d hd2
          exact ⟨v, List.mem_cons_of_mem u hv, hrest⟩

theorem loadSitemap_docs_include (http : String → HttpResult) (soupOf : String → Soup)
    (st : String) :
    ∀ urls url, url ∈ urls → shouldSkip url = false →
      MIN_TEXT_LENGTH ≤ (fetchPage http soupOf url).length →
      (⟨fetchPage http soupOf url, ⟨some url, some st, some (urlTitle url)⟩⟩ : Document) ∈
        (loadSitemap http soupOf urls st).docs := by
  intro urls
  induction urls with
  | nil =>
    intro url hmem
    exact absurd hmem (List.not_mem_nil url)
  | cons u rest ih =>
    intro url hmem hskip hlen
    rcases List.mem_cons.mp hmem with rfl | hmem2
    · rw [loadSitemap_cons_noskip http soupOf url rest st hskip,
        if_neg (Nat.not_lt_of_le hlen)]
      exact List.mem_cons_self _ _
    · by_cases hu : shouldSkip u = true
      · rw [loadSitemap_fetched_skip http soupOf u rest st hu]
        exact ih url hmem2 hskip hlen
      · have hu' : shouldSkip u = false := by
          cases hq : shouldSkip u
          · rfl
          · exact absurd hq hu
        rw [loadSitemap_cons_noskip http soupOf u rest st hu']
        split
        · exact ih url hmem2 hskip hlen
        · exact List.mem_cons_of_mem _ (ih url hmem2 hskip hlen)

/-- C4: a fetched response whose `Content-Type` does not contain
`text/html` makes `_fetch_page` return the empty string; every URL
whose cleaned text (including that empty string) is shorter than 200
characters yields no document in the loader's result; and every
non-skipped sitemap URL with cleaned text of length at least 200
yields its document, carrying that text. -/
theorem C4_content_filters (http : String → HttpResult) (soupOf : String → Soup)
    (urls : List String) (source_type url : String)
    (hskip : shouldSkip url = false) (hmem : url ∈ urls) :
    (∀ contentType body, http url = .success contentType body →
        pyIn "text/html" contentType = false → fetchPage http soupOf url = "") ∧
    ((fetchPage http soupOf url).length < MIN_TEXT_LENGTH →
        ∀ d ∈ (loadSitemap http soupOf urls source_type).docs,
          d.metadata.source ≠ some url) ∧
    (MIN_TEXT_LENGTH ≤ (fetchPage http soupOf url).length →
        ∃ d ∈ (loadSitemap http soupOf urls source_type).docs,
          d.metadata.source = some url ∧
            d.page_content = fetchPage http soupOf url) := by
  refine ⟨?_, ?_, ?_⟩
  · intro contentType body hhttp hct
    unfold fetchPage
    rw [hhttp]
    simp [hct]
  · intro hlen d hd hsrc
    obtain ⟨v, _hv, _hvskip, hvlen, rfl⟩ := loadSitemap_docs_mem http soupOf source_type urls d hd
    have : v = url := by
      simpa using hsrc
    rw [this] at hvlen
    omega
  · intro hlen
    exact ⟨⟨fetchPage http soupOf url, ⟨some url, some source_type, some (urlTitle url)⟩⟩,
      loadSitemap_docs_include http soupOf source_type urls url hmem hskip hlen, rfl, rfl⟩

set_option maxRecDepth 100000 in
/-- C4 (witness): a 200-character clean page is included in a concrete
one-URL sitemap load, and a `application/pdf` response yields the
empty string. -/
theorem C4_witness :
    shouldSkip "https://www.promtior.ai/about" = false ∧
    MIN_TEXT_LENGTH ≤
      (fetchPage (fun _ => .success "text/html; charset=utf-8" "body")
        (fun _ => ⟨some (String.mk (List.replicate 200 'x')), none, none⟩)
        "https://www.promtior.ai/about").length ∧
    (∃ d ∈ (loadSitemap (fun _ => .success "text/html; charset=utf-8" "body")
          (fun _ => ⟨some (String.mk (List.replicate 200 'x')), none, none⟩)
          ["https://www.promtior.ai/about"] "website").docs,
        d.metadata.source = some "https://www.promtior.ai/about" ∧
          d.page_content =
            fetchPage (fun _ => .success "text/html; charset=utf-8" "body")
              (fun _ => ⟨some (String.mk (List.replicate 200 'x')), none, none⟩)
              "https://www.promtior.ai/about") ∧
    fetchPage (fun _ => .success "application/pdf" "binary")
        (fun _ => ⟨some (String.mk (List.replicate 200 'x')), none, none⟩)
        "https://www.promtior.ai/about" = "" := by
  have happ := C4_content_filters (fun _ => .success "text/html; charset=utf-8" "body")
      (fun _ => ⟨some (String.mk (List.replicate 200 'x')), none, none⟩)
      ["https://www.promtior.ai/about"] "website" "https://www.promtior.ai/about"
      rfl (by simp)
  have happ2 := C4_content_filters (fun _ => .success "application/pdf" "binary")
      (fun _ => ⟨some (String.mk (List.replicate 200 'x')), none, none⟩)
      ["https://www.promtior.ai/about"] "website" "https://www.promtior.ai/about"
      rfl (by simp)
  exact ⟨rfl, by decide, happ.2.2 (by decide), happ2.1 "application/pdf" "binary" rfl rfl⟩

/-! ## Lemmas about the `_parse_page` cleaning chain (claim C8) -/

theorem afterLastNewline_length :
    ∀ (l s : List Char), afterLastNewline l = some s → s.length < l.length := by
  intro l
  induction l with
  | nil => intro s h; simp [afterLastNewline] at h
  | cons c cs ih =>
    intro s h
    simp only [afterLastNewline] at h
    cases hcs : afterLastNewline cs with
    | some t =>
      rw [hcs] at h
      have := ih t hcs
      simp only [Option.some.injEq] at h
      subst h
      simp only [List.length_cons]
      omega
    | none =>
      rw [hcs] at h
      by_cases hc : c == '\n'
      · simp [hc] at h
        subst h
        simp
      · simp [hc] at h

theorem afterLastNewline_none_no_nl :
    ∀ l : List Char, afterLastNewline l = none → '\n' ∉ l := by
  intro l
  induction l with
  | nil =>
    intro _ h
    exact absurd h (List.not_mem_nil _)
  | cons c cs ih =>
    intro h
    simp only [afterLastNewline] at h
    cases hcs : afterLastNewline cs with
    | some t =>
      rw [hcs] at h
      exact absurd h (by simp)
    | none =>
      rw [hcs] at h
      by_cases hc : (c == '\n') = true
      · rw [if_pos hc] at h
        exact absurd h (by simp)
      · rw [if_neg hc] at h
        intro hmem
        rcases List.mem_cons.mp hmem with rfl | hmem2
        · exact hc (by simp)
        · exact ih hcs hmem2

theorem afterLastNewline_some_no_nl :
    ∀ l s : List Char, afterLastNewline l = some s → '\n' ∉ s := by
  intro l
  induction l with
  | nil =>
    intro s h
    simp [afterLastNewline] at h
  | cons c cs ih =>
    intro s h
    simp only [afterLastNewline] at h
    cases hcs : afterLastNewline cs with
    | some t =>
      rw [hcs] at h
      simp only [Option.some.injEq] at h
      subst h
      exact ih t hcs
    | none =>
      rw [hcs] at h
      by_cases hc : (c == '\n') = true
      · rw [if_pos hc] at h
        simp only [Option.some.injEq] at h
        subst h
        exact afterLastNewline_none_no_nl cs hcs
      · rw [if_neg hc] at h
        simp at h

theorem afterLastNewline_mem :
    ∀ l s : List Char, afterLastNewline l = some s → ∀ c ∈ s, c ∈ l := by
  intro l
  induction l with
  | nil =>
    intro s h
    simp [afterLastNewline] at h
  | cons c cs ih =>
    intro s h
    simp only [afterLastNewline] at h
    cases hcs : afterLastNewline cs with
    | some t =>
      rw [hcs] at h
      simp only [Option.some.injEq] at h
      subst h
      intro x hx
      exact List.mem_cons_of_mem c (ih t hcs x hx)
    | none =>
      rw [hcs] at h
      by_cases hc : (c == '\n') = true
      · rw [if_pos hc] at h
        simp only [Option.some.injEq] at h
        subst h
        intro x hx
        exact List.mem_cons_of_mem c hx
      · rw [if_neg hc] at h
        simp at h

theorem listStartsWith_nl_false (t l : List Char) (h : headIsNl l = false) :
    listStartsWith ('\n' :: t) l = false := by
  cases l with
  | nil => rfl
  | cons c cs =>
    have hc : (c == '\n') = false := h
    simp only [listStartsWith, hc, Bool.false_and]

theorem headIsNl_dropWhile_ws (l : List Char) :
    headIsNl (l.dropWhile Char.isWhitespace) = false := by
  induction l with
  | nil => rfl
  | cons c cs ih =>
    by_cases hw : Char.isWhitespace c = true
    · rw [List.dropWhile_cons_of_pos hw]
      exact ih
    · rw [List.dropWhile_cons_of_neg hw]
      have : (c == '\n') = false := by
        cases hq : (c == '\n')
        · rfl
        · rw [beq_iff_eq] at hq
          subst hq
          exact absurd rfl hw
      exact this

theorem afterLastNewline_takeWhile_of_headIsNl (cs : List Char)
    (h : headIsNl cs = true) :
    afterLastNewline (cs.takeWhile Char.isWhitespace) ≠ none := by
  cases cs with
  | nil => simp [headIsNl] at h
  | cons c t =>
    have hc : c = '\n' := by
      have : (c == '\n') = true := h
      simpa using this
    subst hc
    rw [List.takeWhile_cons_of_pos (by decide)]
    simp only [afterLastNewline]
    cases afterLastNewline (t.takeWhile Char.isWhitespace) <;> simp

theorem cwrGo_nil (fuel : Nat) : cwrGo fuel [] = [] := by
  cases fuel <;> rfl

theorem headIsNl_cwrGo (fuel : Nat) (l : List Char) :
    headIsNl (cwrGo fuel l) = headIsNl l := by
  match fuel, l with
  | fuel, [] =>
    rw [cwrGo_nil]
  | 0, c :: cs => rfl
  | fuel + 1, c :: cs =>
    simp only [cwrGo]
    by_cases hc : (c == '\n') = true
    · rw [if_pos hc]
      cases hm : afterLastNewline (cs.takeWhile Char.isWhitespace) with
      | some suffix =>
        simp [headIsNl, hc]
      | none =>
        rfl
    · rw [if_neg hc]
      rfl

theorem cwrGo_no_triple (fuel : Nat) :
    ∀ l : List Char, l.length ≤ fuel →
      containsSeg ['\n', '\n', '\n'] (cwrGo fuel l) = false := by
  induction fuel with
  | zero =>
    intro l hl
    have hnil : l = [] := List.length_eq_zero.mp (Nat.le_zero.mp hl)
    subst hnil
    rfl
  | succ fuel ih =>
    intro l hl
    cases l with
    | nil => rfl
    | cons c cs =>
      simp only [cwrGo]
      by_cases hc : (c == '\n') = true
      · rw [if_pos hc]
        cases hm : afterLastNewline (cs.takeWhile Char.isWhitespace) with
        | some suffix =>
          have hlen : (suffix ++ cs.dropWhile Char.isWhitespace).length ≤ fuel := by
            have h1 := afterLastNewline_length _ _ hm
            have h2 : (cs.takeWhile Char.isWhitespace).length +
                (cs.dropWhile Char.isWhitespace).length = cs.length := by
              rw [← List.length_append, List.takeWhile_append_dropWhile]
            have h3 : cs.length + 1 ≤ fuel + 1 := by simpa using hl
            simp only [List.length_append]
            omega
          have hhead : headIsNl (cwrGo fuel (suffix ++ cs.dropWhile Char.isWhitespace)) =
              false := by
            rw [headIsNl_cwrGo]
            cases hs : suffix with
            | nil =>
              rw [List.nil_append]
              exact headIsNl_dropWhile_ws cs
            | cons s0 st =>
              have hmem : s0 ∈ suffix := by
                rw [hs]
                exact List.mem_cons_self _ _
              have hnonl := afterLastNewline_some_no_nl _ _ hm
              have hs0 : s0 ≠ '\n' := fun he => hnonl (he ▸ hmem)
              show (s0 == '\n') = false
              simpa using hs0
          have hrec := ih _ hlen
          have h1 : listStartsWith ['\n'] (cwrGo fuel (suffix ++ cs.dropWhile Char.isWhitespace)) =
              false := listStartsWith_nl_false [] _ hhead
          have h2 : listStartsWith ['\n', '\n']
              (cwrGo fuel (suffix ++ cs.dropWhile Char.isWhitespace)) = false :=
            listStartsWith_nl_false ['\n'] _ hhead
          simp [containsSeg, listStartsWith, h1, h2, hrec]
        | none =>
          have hc' : c = '\n' := by simpa using hc
          have hheadcs : headIsNl cs = false := by
            by_cases hh : headIsNl cs = true
            · exact absurd hm (afterLastNewline_takeWhile_of_headIsNl cs hh)
            · simpa using hh
          have hrec := ih cs (by simpa using hl)
          have hhead : headIsNl (cwrGo fuel cs) = false := by
            rw [headIsNl_cwrGo]
            exact hheadcs
          have h2 : listStartsWith ['\n', '\n'] (cwrGo fuel cs) = false :=
            listStartsWith_nl_false ['\n'] _ hhead
          subst hc'
          simp [containsSeg, listStartsWith, h2, hrec]
      · rw [if_neg hc]
        have hrec := ih cs (by simpa using hl)
        have hcf : (c == '\n') = false := by
          cases hq : (c == '\n')
          · rfl
          · exact absurd hq hc
        simp [containsSeg, listStartsWith, hcf, hrec]

theorem pyStripChars_within (l : List Char) : pyStripChars l <:+: l := by
  unfold pyStripChars
  have h1 : l.dropWhile Char.isWhitespace <:+ l := List.dropWhile_suffix _
  have h2 : (l.dropWhile Char.isWhitespace).reverse.dropWhile Char.isWhitespace <:+
      (l.dropWhile Char.isWhitespace).reverse := List.dropWhile_suffix _
  have h3 : ((l.dropWhile Char.isWhitespace).reverse.dropWhile Char.isWhitespace).reverse <+:
      l.dropWhile Char.isWhitespace := by
    rw [← List.reverse_reverse (l.dropWhile Char.isWhitespace)]
    rw [List.reverse_prefix]
    simpa using h2
  exact h3.isInfix.trans h1.isInfix

theorem containsSeg_false_mono {pat l₁ l₂ : List Char} (hinf : l₁ <:+: l₂)
    (h : containsSeg pat l₂ = false) : containsSeg pat l₁ = false := by
  cases hq : containsSeg pat l₁
  · rfl
  · have h2 := containsSeg_iff.mpr ((containsSeg_iff.mp hq).trans hinf)
    rw [h] at h2
    exact absurd h2 (by simp)

theorem mem_remLitGo (p : Char) (ps : List Char) :
    ∀ fuel l c, c ∈ remLitGo p ps fuel l → c ∈ l := by
  intro fuel
  induction fuel with
  | zero =>
    intro l c h
    cases l with
    | nil => simp [remLitGo] at h
    | cons a as => simpa [remLitGo] using h
  | succ fuel ih =>
    intro l c h
    cases l with
    | nil => simp [remLitGo] at h
    | cons a as =>
      simp only [remLitGo] at h
      by_cases hmt : matchesCI (p :: ps) (a :: as) = true
      · rw [if_pos hmt] at h
        exact List.mem_cons_of_mem a (List.mem_of_mem_drop (ih _ _ h))
      · rw [if_neg hmt] at h
        rcases List.mem_cons.mp h with rfl | h2
        · exact List.mem_cons_self _ _
        · exact List.mem_cons_of_mem a (ih _ _ h2)

theorem mem_remLitClsGo (lit : List Char) (cls : Char → Bool) :
    ∀ fuel l c, c ∈ remLitClsGo lit cls fuel l → c ∈ l := by
  intro fuel
  induction fuel with
  | zero =>
    intro l c h
    cases l with
    | nil => simp [remLitClsGo] at h
    | cons a as => simpa [remLitClsGo] using h
  | succ fuel ih =>
    intro l c h
    cases l with
    | nil => simp [remLitClsGo] at h
    | cons a as =>
      simp only [remLitClsGo] at h
      by_cases hmt : matchesCI lit (a :: as) = true
      · rw [if_pos hmt] at h
        cases hrun : ((a :: as).drop lit.length).takeWhile cls with
        | nil =>
          rw [hrun] at h
          rcases List.mem_cons.mp h with rfl | h2
          · exact List.mem_cons_self _ _
          · exact List.mem_cons_of_mem a (ih _ _ h2)
        | cons r rs =>
          rw [hrun] at h
          have hmem := ih _ _ h
          have hmem2 : c ∈ (a :: as).drop lit.length :=
            (List.dropWhile_suffix cls).sublist.subset hmem
          exact List.mem_of_mem_drop hmem2
      · rw [if_neg hmt] at h
        rcases List.mem_cons.mp h with rfl | h2
        · exact List.mem_cons_self _ _
        · exact List.mem_cons_of_mem a (ih _ _ h2)

theorem mem_cwrGo :
    ∀ fuel l c, c ∈ cwrGo fuel l → c = '\n' ∨ c ∈ l := by
  intro fuel
  induction fuel with
  | zero =>
    intro l c h
    cases l with
    | nil => simp [cwrGo] at h
    | cons a as => exact Or.inr (by simpa [cwrGo] using h)
  | succ fuel ih =>
    intro l c h
    cases l with
    | nil => simp [cwrGo] at h
    | cons a as =>
      simp only [cwrGo] at h
      by_cases ha : (a == '\n') = true
      · rw [if_pos ha] at h
        cases hm : afterLastNewline (as.takeWhile Char.isWhitespace) with
        | some suffix =>
          rw [hm] at h
          rcases List.mem_cons.mp h with rfl | h2
          · exact Or.inl rfl
          rcases List.mem_cons.mp h2 with rfl | h3
          · exact Or.inl rfl
          rcases ih _ _ h3 with hnl | hmem
          · exact Or.inl hnl
          rcases List.mem_append.mp hmem with hsuf | hdrop
          · have h4 : c ∈ as.takeWhile Char.isWhitespace :=
              afterLastNewline_mem _ _ hm c hsuf
            exact Or.inr (List.mem_cons_of_mem a
              ((List.takeWhile_prefix _).sublist.subset h4))
          · exact Or.inr (List.mem_cons_of_mem a
              ((List.dropWhile_suffix _).sublist.subset hdrop))
        | none =>
          rw [hm] at h
          rcases List.mem_cons.mp h with rfl | h2
          · exact Or.inr (List.mem_cons_self _ _)
          rcases ih _ _ h2 with hnl | hmem
          · exact Or.inl hnl
          · exact Or.inr (List.mem_cons_of_mem a hmem)
      · rw [if_neg ha] at h
        rcases List.mem_cons.mp h with rfl | h2
        · exact Or.inr (List.mem_cons_self _ _)
        rcases ih _ _ h2 with hnl | hmem
        · exact Or.inl hnl
        · exact Or.inr (List.mem_cons_of_mem a hmem)

theorem mem_removePhraseCI (pat : String) (l : List Char) (c : Char)
    (h : c ∈ removePhraseCI pat l) : c ∈ l := by
  unfold removePhraseCI at h
  rcases hd : pat.data with _ | ⟨p, ps⟩
  · rw [hd] at h
    exact h
  · rw [hd] at h
    exact mem_remLitGo p ps _ _ _ h

theorem mem_removeNoise (l : List Char) (c : Char) (h : c ∈ removeNoise l) : c ∈ l := by
  unfold removeNoise at h
  have h1 := mem_remLitClsGo _ _ _ _ _ h
  have h2 := mem_removePhraseCI _ _ _ h1
  have h3 := mem_remLitClsGo _ _ _ _ _ h2
  have h4 := mem_removePhraseCI _ _ _ h3
  have h5 := mem_removePhraseCI _ _ _ h4
  exact mem_removePhraseCI _ _ _ h5

theorem mem_stripZeroWidth (l : List Char) (c : Char) (h : c ∈ stripZeroWidth l) :
    isZeroWidth c = false := by
  have := (List.mem_filter.mp h).2
  simpa using this

theorem remLitGo_no_occurrence (p : Char) (ps : List Char) :
    ∀ fuel l, containsSegCI (p :: ps) l = false → remLitGo p ps fuel l = l := by
  intro fuel
  induction fuel with
  | zero =>
    intro l _
    cases l <;> rfl
  | succ fuel ih =>
    intro l h
    cases l with
    | nil => rfl
    | cons a as =>
      simp only [containsSegCI, Bool.or_eq_false_iff] at h
      simp only [remLitGo]
      rw [if_neg (by simp [h.1]), ih as h.2]

theorem stringMk_data (Y : List Char) : (String.mk Y).data = Y := rfl

theorem cleanPageText_eq (t : String) :
    cleanPageText t = ⟨pyStripChars (collapseWsRuns (removeNoise
      (stripZeroWidth (collapseNewlineRuns t.data))))⟩ := by
  rw [cleanPageText]

theorem cleanPageText_data (t : String) :
    (cleanPageText t).data =
      pyStripChars (collapseWsRuns (removeNoise
        (stripZeroWidth (collapseNewlineRuns t.data)))) := by
  rw [cleanPageText_eq, stringMk_data]

set_option maxHeartbeats 1000000 in
/-- C8 (counterexample): `_parse_page` on a body of `"ccookieookie"`
returns `"cookie"` — deleting the single case-insensitive occurrence of
the boilerplate phrase splices a new occurrence together, so the
cleaned text still contains a boilerplate phrase, refuting the
claim's "boilerplate phrases removed" conjunct as a postcondition. -/
theorem C8_counterexample :
    parsePage ⟨none, none, some "ccookieookie"⟩ = "cookie" ∧
    containsSegCI ("cookie").data
      (parsePage ⟨none, none, some "ccookieookie"⟩).data = true := by
  constructor
  · rfl
  · rfl

/-- C8 (amended): for every input, the cleaned text `_parse_page`
returns contains no run of 3 or more consecutive newlines and none of
the zero-width characters U+200B, U+200C, U+200D, U+FEFF, and is the
empty string when the document has no main, article or body element.
Each boilerplate phrase is removed in one left-to-right
non-overlapping case-insensitive pass — a pass leaves text without
any occurrence unchanged, but a deletion can splice a new occurrence
together, which survives (see the counterexample). -/
theorem C8_amended_parse_page (soup : Soup) :
    containsSeg ['\n', '\n', '\n'] (parsePage soup).data = false ∧
    (∀ c ∈ (parsePage soup).data, isZeroWidth c = false) ∧
    (soup.mainText = none → soup.articleText = none → soup.bodyText = none →
      parsePage soup = "") ∧
    (∀ pat : String, ∀ l : List Char,
      containsSegCI pat.data l = false → removePhraseCI pat l = l) := by
  refine ⟨?_, ?_, ?_, ?_⟩
  · unfold parsePage
    cases hopt : soup.mainText <|> soup.articleText <|> soup.bodyText with
    | none => rfl
    | some t =>
      show containsSeg _ (cleanPageText t).data = false
      rw [cleanPageText_data]
      refine containsSeg_false_mono (pyStripChars_within _) ?_
      rw [collapseWsRuns]
      exact cwrGo_no_triple _ _ le_rfl
  · unfold parsePage
    cases hopt : soup.mainText <|> soup.articleText <|> soup.bodyText with
    | none =>
      intro c hc
      exact absurd hc (List.not_mem_nil c)
    | some t =>
      intro c hc
      have hc1 : c ∈ (cleanPageText t).data := hc
      rw [cleanPageText_data] at hc1
      have hc2 := (pyStripChars_within _).sublist.subset hc1
      rw [collapseWsRuns] at hc2
      rcases mem_cwrGo _ _ _ hc2 with rfl | hc3
      · rfl
      · exact mem_stripZeroWidth _ _ (mem_removeNoise _ _ hc3)
  · intro h1 h2 h3
    unfold parsePage
    rw [h1, h2, h3]
    rfl
  · intro pat l h
    unfold removePhraseCI
    rcases hd : pat.data with _ | ⟨p, ps⟩
    · rfl
    · rw [hd] at h
      exact remLitGo_no_occurrence p ps _ l h

/-- C8 (witness): the amended theorem applied at concrete soups and a
concrete occurrence-free text. -/
theorem C8_amended_witness :
    containsSeg ['\n', '\n', '\n']
      (parsePage ⟨none, none, some "x\n\n\n\ncookie\n \ny"⟩).data = false ∧
    parsePage ⟨none, none, none⟩ = "" ∧
    removePhraseCI "cookie" ("clean text").data = ("clean text").data :=
  ⟨(C8_amended_parse_page ⟨none, none, some "x\n\n\n\ncookie\n \ny"⟩).1,
   (C8_amended_parse_page ⟨none, none, none⟩).2.2.1 rfl rfl rfl,
   (C8_amended_parse_page ⟨none, none, none⟩).2.2.2 "cookie" ("clean text").data rfl⟩

end Promtior
